import Mathlib

/-!
Shallow embedding of the differential-drive robot simulator
(class RobotSimulator, the later draft with the wheel-offset pose model)
and the two drafts of the inverse-kinematics path calculator
(class RobotPathCalculator).  Finite JavaScript numbers are modelled by
real numbers; a second model with an explicit non-finite marker is used
for the claims about NaN propagation.
-/

open Real

noncomputable section

/-- Truncation toward zero, the rounding used by the JavaScript remainder
operator: floor for nonnegative arguments, ceiling for negative ones. -/
def jsTrunc (x : ℝ) : ℤ :=
  if 0 ≤ x then ⌊x⌋ else ⌈x⌉

/-- The JavaScript remainder x % m for finite operands with m nonzero. -/
def jsRem (x m : ℝ) : ℝ :=
  x - m * (jsTrunc (x / m) : ℝ)

/-- Heading normalization performed by the simulator after a rotation:
take the remainder of the new heading by 2*pi, then add 2*pi when the
remainder is negative. -/
def normalize2pi (x : ℝ) : ℝ :=
  let r := jsRem x (2 * π)
  if r < 0 then r + 2 * π else r

/-- Math.sign on a finite number. -/
def jsSignR (x : ℝ) : ℝ :=
  if 0 < x then 1 else if x < 0 then -1 else 0

/-- Per-wheel travel in one step: a zero sign factor gives zero travel, a
positive remaining distance is clamped by min with the step budget, a
negative one by max with the negated budget. -/
def thisStep (remaining maxStep : ℝ) : ℝ :=
  if jsSignR remaining = 0 then 0
  else if 0 < jsSignR remaining then min remaining maxStep
  else max remaining (-maxStep)

/-- State of the simulated robot: reference-point position, heading,
remaining per-wheel distances, configuration, pen flag and trail. -/
structure RobotState where
  posX : ℝ
  posY : ℝ
  orientation : ℝ
  leftWheelDistance : ℝ
  rightWheelDistance : ℝ
  wheelDistance : ℝ
  wheelOffset : ℝ
  speed : ℝ
  penDown : Bool
  penPositions : List (ℝ × ℝ)

/-- Constructor configuration: each field may be absent. -/
structure SimulatorConfig where
  wheelDistance : Option ℝ
  wheelOffset : Option ℝ
  speed : Option ℝ

/-- JavaScript defaulting idiom on an optional numeric field: an absent or
falsy (zero) value picks the default. -/
def jsOrDefault (v : Option ℝ) (d : ℝ) : ℝ :=
  match v with
  | none => d
  | some x => if x = 0 then d else x

/-- The RobotSimulator constructor: defaults 8.5, 12 and 10 for the
configuration, pose at the origin facing the positive x-axis, zero
remaining distances, pen up, empty trail. -/
def mkRobot (config : SimulatorConfig) : RobotState :=
  { posX := 0
    posY := 0
    orientation := 0
    leftWheelDistance := 0
    rightWheelDistance := 0
    wheelDistance := jsOrDefault config.wheelDistance 8.5
    wheelOffset := jsOrDefault config.wheelOffset 12
    speed := jsOrDefault config.speed 10
    penDown := false
    penPositions := [] }

/-- setWheelDistances of the simulator. -/
def setWheelDistances (s : RobotState) (leftDistance rightDistance : ℝ) : RobotState :=
  { s with leftWheelDistance := leftDistance, rightWheelDistance := rightDistance }

/-- setPenDown of the simulator. -/
def setPenDown (s : RobotState) (isDown : Bool) : RobotState :=
  { s with penDown := isDown }

/-- The motion phase of update: clamp both wheel travels, subtract them
from the remaining budgets, then advance the pose in one of the three
regimes (straight, pivot about one wheel, arc about the ICC), exactly as
the source computes it through the wheel-axis center. -/
def moveStep (s : RobotState) (deltaTime : ℝ) : RobotState :=
  let maxDistanceThisStep := s.speed * deltaTime
  let leftDistanceThisStep := thisStep s.leftWheelDistance maxDistanceThisStep
  let rightDistanceThisStep := thisStep s.rightWheelDistance maxDistanceThisStep
  let leftRemaining := s.leftWheelDistance - leftDistanceThisStep
  let rightRemaining := s.rightWheelDistance - rightDistanceThisStep
  let wheelAxisX := s.posX - s.wheelOffset * Real.cos s.orientation
  let wheelAxisY := s.posY - s.wheelOffset * Real.sin s.orientation
  if leftDistanceThisStep = rightDistanceThisStep then
    let distance := leftDistanceThisStep
    let newWheelAxisX := wheelAxisX + distance * Real.cos s.orientation
    let newWheelAxisY := wheelAxisY + distance * Real.sin s.orientation
    { s with
      posX := newWheelAxisX + s.wheelOffset * Real.cos s.orientation
      posY := newWheelAxisY + s.wheelOffset * Real.sin s.orientation
      leftWheelDistance := leftRemaining
      rightWheelDistance := rightRemaining }
  else if leftDistanceThisStep = 0 ∨ rightDistanceThisStep = 0 then
    let rotatingWheel :=
      if leftDistanceThisStep = 0 then rightDistanceThisStep else leftDistanceThisStep
    let angle := rotatingWheel / s.wheelDistance *
      (if leftDistanceThisStep = 0 then (-1 : ℝ) else 1)
    let stationaryWheelX := wheelAxisX +
      (if leftDistanceThisStep = 0 then (1 : ℝ) else -1) *
        (s.wheelDistance / 2) * Real.sin s.orientation
    let stationaryWheelY := wheelAxisY -
      (if leftDistanceThisStep = 0 then (1 : ℝ) else -1) *
        (s.wheelDistance / 2) * Real.cos s.orientation
    let newOrientation := normalize2pi (s.orientation + angle)
    let cosAngle := Real.cos angle
    let sinAngle := Real.sin angle
    let newWheelAxisX := stationaryWheelX +
      (wheelAxisX - stationaryWheelX) * cosAngle -
      (wheelAxisY - stationaryWheelY) * sinAngle *
        (if leftDistanceThisStep = 0 then (1 : ℝ) else -1)
    let newWheelAxisY := stationaryWheelY +
      (wheelAxisX - stationaryWheelX) * sinAngle *
        (if leftDistanceThisStep = 0 then (1 : ℝ) else -1) +
      (wheelAxisY - stationaryWheelY) * cosAngle
    { s with
      orientation := newOrientation
      posX := newWheelAxisX + s.wheelOffset * Real.cos newOrientation
      posY := newWheelAxisY + s.wheelOffset * Real.sin newOrientation
      leftWheelDistance := leftRemaining
      rightWheelDistance := rightRemaining }
  else
    let R := (s.wheelDistance / 2) *
      ((leftDistanceThisStep + rightDistanceThisStep) /
        (rightDistanceThisStep - leftDistanceThisStep))
    let deltaTheta := (rightDistanceThisStep - leftDistanceThisStep) / s.wheelDistance
    let ICCX := wheelAxisX - R * Real.sin s.orientation
    let ICCY := wheelAxisY + R * Real.cos s.orientation
    let newOrientation := normalize2pi (s.orientation + deltaTheta)
    let cosTheta := Real.cos deltaTheta
    let sinTheta := Real.sin deltaTheta
    let newWheelAxisX := cosTheta * (wheelAxisX - ICCX) - sinTheta * (wheelAxisY - ICCY) + ICCX
    let newWheelAxisY := sinTheta * (wheelAxisX - ICCX) + cosTheta * (wheelAxisY - ICCY) + ICCY
    { s with
      orientation := newOrientation
      posX := newWheelAxisX + s.wheelOffset * Real.cos newOrientation
      posY := newWheelAxisY + s.wheelOffset * Real.sin newOrientation
      leftWheelDistance := leftRemaining
      rightWheelDistance := rightRemaining }

/-- Trail recording at the end of update: when the pen is down, append the
current reference-point position to the trail. -/
def pushPen (s : RobotState) : RobotState :=
  if s.penDown then
    { s with penPositions := s.penPositions ++ [(s.posX, s.posY)] }
  else s

/-- update of the simulator: early return on a nonpositive time slice or
when both remaining distances are exactly zero; otherwise run the motion
phase and, when the pen is down, append the new reference point to the
trail. -/
def update (s : RobotState) (deltaTime : ℝ) : RobotState :=
  if deltaTime ≤ 0 then s
  else if s.leftWheelDistance = 0 ∧ s.rightWheelDistance = 0 then s
  else pushPen (moveStep s deltaTime)

/-- Caller-visible operations on the simulator, used to state invariants
over arbitrary interaction sequences. -/
inductive SimCmd where
  | stepCmd (deltaTime : ℝ)
  | setWheels (leftDistance rightDistance : ℝ)
  | setPen (isDown : Bool)

/-- Interpret one caller operation. -/
def runCmd (s : RobotState) (c : SimCmd) : RobotState :=
  match c with
  | SimCmd.stepCmd dt => update s dt
  | SimCmd.setWheels l r => setWheelDistances s l r
  | SimCmd.setPen b => setPenDown s b

/-- Interpret a sequence of caller operations. -/
def runCmds (s : RobotState) (cs : List SimCmd) : RobotState :=
  cs.foldl runCmd s

/-- Repeated update calls with the given time slices. -/
def steps (s : RobotState) (dts : List ℝ) : RobotState :=
  dts.foldl update s

/-- Pose predicted by the first path-calculator draft. -/
structure PredictedState where
  posX : ℝ
  posY : ℝ
  orientation : ℝ

/-- Output of the first path-calculator draft: wheel command plus
predicted state. -/
structure PathResultV1 where
  leftDistance : ℝ
  rightDistance : ℝ
  predictedState : PredictedState

/-- Normalization of the predicted heading by the two while loops of the
first path-calculator draft: the first loop subtracts 2*pi while the value
exceeds pi, the second adds 2*pi while it is below -pi; the closed form
records the loop iteration counts as ceilings. -/
def normalizePmPi (x : ℝ) : ℝ :=
  if π < x then x - 2 * π * (⌈(x - π) / (2 * π)⌉ : ℝ)
  else if x < -π then x + 2 * π * (⌈(-π - x) / (2 * π)⌉ : ℝ)
  else x

/-- JavaScript defaulting idiom on a present number: zero picks one. -/
def jsOrOne (x : ℝ) : ℝ := if x = 0 then 1 else x

/-- First draft of calculateWheelDistancesDirect: the world-frame delta is
used directly, and a predicted state is returned alongside the wheel
command. -/
def calculateWheelDistancesDirectV1 (robot : RobotState) (targetX targetY : ℝ) :
    PathResultV1 :=
  let deltaX := targetX - robot.posX
  let deltaY := targetY - robot.posY
  let widthToLengthRatio := robot.wheelDistance / jsOrOne robot.wheelOffset
  let leftDistance := deltaY + widthToLengthRatio * deltaX
  let rightDistance := deltaY - widthToLengthRatio * deltaX
  let wheelDifference := leftDistance - rightDistance
  let relativeAngle := Real.arctan (wheelDifference / robot.wheelDistance)
  let newX := robot.posX + deltaX
  let newY := robot.posY + deltaY
  let newTheta := normalizePmPi (robot.orientation + relativeAngle)
  { leftDistance := leftDistance
    rightDistance := rightDistance
    predictedState := { posX := newX, posY := newY, orientation := newTheta } }

/-- Output of the second path-calculator draft: only the wheel command. -/
structure PathResultV2 where
  leftDistance : ℝ
  rightDistance : ℝ

/-- Second draft of calculateWheelDistancesDirect: the world-frame delta is
rotated by the negated heading into the robot frame, and only the wheel
command is returned. -/
def calculateWheelDistancesDirect (robot : RobotState) (targetX targetY : ℝ) :
    PathResultV2 :=
  let deltaXWorld := targetX - robot.posX
  let deltaYWorld := targetY - robot.posY
  let cosTheta := Real.cos (-robot.orientation)
  let sinTheta := Real.sin (-robot.orientation)
  let deltaXRobot := deltaXWorld * cosTheta - deltaYWorld * sinTheta
  let deltaYRobot := deltaXWorld * sinTheta + deltaYWorld * cosTheta
  let widthToLengthRatio := robot.wheelDistance / jsOrOne robot.wheelOffset
  { leftDistance := deltaXRobot - widthToLengthRatio * deltaYRobot
    rightDistance := deltaXRobot + widthToLengthRatio * deltaYRobot }


/-! A second model of the simulator in which a JavaScript number is either
a finite real (some x) or the non-finite marker none, standing for NaN or
for an infinity produced by a division by zero.  Arithmetic propagates the
marker, comparisons involving the marker are false, and strict equality
never holds for the marker, matching the IEEE semantics JavaScript uses.
Finite-by-finite arithmetic stays finite since the reals do not overflow;
this model is used for the claims about non-finite inputs to update. -/

open scoped Classical

/-- A JavaScript number: a finite real, or the non-finite marker. -/
def JSNum : Type := Option ℝ

/-- Addition with non-finite propagation. -/
def jsAdd : JSNum → JSNum → JSNum
  | some x, some y => some (x + y)
  | _, _ => none

/-- Subtraction with non-finite propagation. -/
def jsSub : JSNum → JSNum → JSNum
  | some x, some y => some (x - y)
  | _, _ => none

/-- Multiplication with non-finite propagation. -/
def jsMul : JSNum → JSNum → JSNum
  | some x, some y => some (x * y)
  | _, _ => none

/-- Division: non-finite operands and division by zero give the
non-finite marker. -/
def jsDiv : JSNum → JSNum → JSNum
  | some x, some y => if y = 0 then none else some (x / y)
  | _, _ => none

/-- The remainder operator on JavaScript numbers. -/
def jsRemN : JSNum → JSNum → JSNum
  | some x, some y => if y = 0 then none else some (jsRem x y)
  | _, _ => none

/-- Negation with non-finite propagation. -/
def jsNegN : JSNum → JSNum
  | some x => some (-x)
  | none => none

/-- Math.sin: NaN on a non-finite argument. -/
def jsSinN : JSNum → JSNum
  | some x => some (Real.sin x)
  | none => none

/-- Math.cos: NaN on a non-finite argument. -/
def jsCosN : JSNum → JSNum
  | some x => some (Real.cos x)
  | none => none

/-- Math.sign: NaN on a non-finite argument. -/
def jsSignN : JSNum → JSNum
  | some x => some (jsSignR x)
  | none => none

/-- Math.min: NaN when either argument is non-finite. -/
def jsMinN : JSNum → JSNum → JSNum
  | some x, some y => some (min x y)
  | _, _ => none

/-- Math.max: NaN when either argument is non-finite. -/
def jsMaxN : JSNum → JSNum → JSNum
  | some x, some y => some (max x y)
  | _, _ => none

/-- Strict equality of JavaScript numbers: false whenever an operand is
non-finite (NaN is not equal to anything, including itself). -/
def jsEqP : JSNum → JSNum → Prop
  | some x, some y => x = y
  | _, _ => False

/-- Less-or-equal: false whenever an operand is non-finite. -/
def jsLeP : JSNum → JSNum → Prop
  | some x, some y => x ≤ y
  | _, _ => False

/-- Strictly-less: false whenever an operand is non-finite. -/
def jsLtP : JSNum → JSNum → Prop
  | some x, some y => x < y
  | _, _ => False

/-- Simulator state over JavaScript numbers. -/
structure RobotStateJS where
  posX : JSNum
  posY : JSNum
  orientation : JSNum
  leftWheelDistance : JSNum
  rightWheelDistance : JSNum
  wheelDistance : JSNum
  wheelOffset : JSNum
  speed : JSNum
  penDown : Bool
  penPositions : List (JSNum × JSNum)

/-- The motion phase of update over JavaScript numbers, mirroring moveStep
operation by operation, including the sign-factor conditionals of the
clamp and the remainder-based heading normalization. -/
def jsMoveStep (s : RobotStateJS) (deltaTime : JSNum) : RobotStateJS :=
  let maxDistanceThisStep := jsMul s.speed deltaTime
  let leftSignFactor := jsSignN s.leftWheelDistance
  let rightSignFactor := jsSignN s.rightWheelDistance
  let leftDistanceThisStep :=
    if jsEqP leftSignFactor (some 0) then some 0
    else if jsLtP (some 0) leftSignFactor then jsMinN s.leftWheelDistance maxDistanceThisStep
    else jsMaxN s.leftWheelDistance (jsNegN maxDistanceThisStep)
  let rightDistanceThisStep :=
    if jsEqP rightSignFactor (some 0) then some 0
    else if jsLtP (some 0) rightSignFactor then jsMinN s.rightWheelDistance maxDistanceThisStep
    else jsMaxN s.rightWheelDistance (jsNegN maxDistanceThisStep)
  let leftRemaining := jsSub s.leftWheelDistance leftDistanceThisStep
  let rightRemaining := jsSub s.rightWheelDistance rightDistanceThisStep
  let wheelAxisX := jsSub s.posX (jsMul s.wheelOffset (jsCosN s.orientation))
  let wheelAxisY := jsSub s.posY (jsMul s.wheelOffset (jsSinN s.orientation))
  if jsEqP leftDistanceThisStep rightDistanceThisStep then
    let distance := leftDistanceThisStep
    let newWheelAxisX := jsAdd wheelAxisX (jsMul distance (jsCosN s.orientation))
    let newWheelAxisY := jsAdd wheelAxisY (jsMul distance (jsSinN s.orientation))
    { s with
      posX := jsAdd newWheelAxisX (jsMul s.wheelOffset (jsCosN s.orientation))
      posY := jsAdd newWheelAxisY (jsMul s.wheelOffset (jsSinN s.orientation))
      leftWheelDistance := leftRemaining
      rightWheelDistance := rightRemaining }
  else if jsEqP leftDistanceThisStep (some 0) ∨ jsEqP rightDistanceThisStep (some 0) then
    let rotatingWheel :=
      if jsEqP leftDistanceThisStep (some 0) then rightDistanceThisStep
      else leftDistanceThisStep
    let angle := jsMul (jsDiv rotatingWheel s.wheelDistance)
      (if jsEqP leftDistanceThisStep (some 0) then some (-1 : ℝ) else some 1)
    let stationaryWheelX := jsAdd wheelAxisX
      (jsMul (jsMul (if jsEqP leftDistanceThisStep (some 0) then some (1 : ℝ) else some (-1))
        (jsDiv s.wheelDistance (some 2))) (jsSinN s.orientation))
    let stationaryWheelY := jsSub wheelAxisY
      (jsMul (jsMul (if jsEqP leftDistanceThisStep (some 0) then some (1 : ℝ) else some (-1))
        (jsDiv s.wheelDistance (some 2))) (jsCosN s.orientation))
    let newOrientation0 := jsRemN (jsAdd s.orientation angle) (some (2 * π))
    let newOrientation :=
      if jsLtP newOrientation0 (some 0) then jsAdd newOrientation0 (some (2 * π))
      else newOrientation0
    let cosAngle := jsCosN angle
    let sinAngle := jsSinN angle
    let newWheelAxisX := jsSub
      (jsAdd stationaryWheelX (jsMul (jsSub wheelAxisX stationaryWheelX) cosAngle))
      (jsMul (jsMul (jsSub wheelAxisY stationaryWheelY) sinAngle)
        (if jsEqP leftDistanceThisStep (some 0) then some (1 : ℝ) else some (-1)))
    let newWheelAxisY := jsAdd
      (jsAdd stationaryWheelY (jsMul (jsMul (jsSub wheelAxisX stationaryWheelX) sinAngle)
        (if jsEqP leftDistanceThisStep (some 0) then some (1 : ℝ) else some (-1))))
      (jsMul (jsSub wheelAxisY stationaryWheelY) cosAngle)
    { s with
      orientation := newOrientation
      posX := jsAdd newWheelAxisX (jsMul s.wheelOffset (jsCosN newOrientation))
      posY := jsAdd newWheelAxisY (jsMul s.wheelOffset (jsSinN newOrientation))
      leftWheelDistance := leftRemaining
      rightWheelDistance := rightRemaining }
  else
    let R := jsMul (jsDiv s.wheelDistance (some 2))
      (jsDiv (jsAdd leftDistanceThisStep rightDistanceThisStep)
        (jsSub rightDistanceThisStep leftDistanceThisStep))
    let deltaTheta := jsDiv (jsSub rightDistanceThisStep leftDistanceThisStep) s.wheelDistance
    let ICCX := jsSub wheelAxisX (jsMul R (jsSinN s.orientation))
    let ICCY := jsAdd wheelAxisY (jsMul R (jsCosN s.orientation))
    let newOrientation0 := jsRemN (jsAdd s.orientation deltaTheta) (some (2 * π))
    let newOrientation :=
      if jsLtP newOrientation0 (some 0) then jsAdd newOrientation0 (some (2 * π))
      else newOrientation0
    let cosTheta := jsCosN deltaTheta
    let sinTheta := jsSinN deltaTheta
    let newWheelAxisX := jsAdd
      (jsSub (jsMul cosTheta (jsSub wheelAxisX ICCX)) (jsMul sinTheta (jsSub wheelAxisY ICCY)))
      ICCX
    let newWheelAxisY := jsAdd
      (jsAdd (jsMul sinTheta (jsSub wheelAxisX ICCX)) (jsMul cosTheta (jsSub wheelAxisY ICCY)))
      ICCY
    { s with
      orientation := newOrientation
      posX := jsAdd newWheelAxisX (jsMul s.wheelOffset (jsCosN newOrientation))
      posY := jsAdd newWheelAxisY (jsMul s.wheelOffset (jsSinN newOrientation))
      leftWheelDistance := leftRemaining
      rightWheelDistance := rightRemaining }

/-- update over JavaScript numbers: the early returns compare with zero
through the JavaScript comparison semantics, so a NaN time slice passes
the nonpositive-time guard. -/
def jsUpdate (s : RobotStateJS) (deltaTime : JSNum) : RobotStateJS :=
  if jsLeP deltaTime (some 0) then s
  else if jsEqP s.leftWheelDistance (some 0) ∧ jsEqP s.rightWheelDistance (some 0) then s
  else
    let s' := jsMoveStep s deltaTime
    if s'.penDown then
      { s' with penPositions := s'.penPositions ++ [(s'.posX, s'.posY)] }
    else s'

/-! Helper lemmas about the clamp, the sign function and the heading
normalization. -/

theorem jsSignR_of_pos {x : ℝ} (h : 0 < x) : jsSignR x = 1 := by
  simp [jsSignR, h]

theorem jsSignR_of_neg {x : ℝ} (h : x < 0) : jsSignR x = -1 := by
  simp [jsSignR, h, h.not_lt]

theorem jsSignR_zero : jsSignR 0 = 0 := by
  simp [jsSignR]

theorem thisStep_of_pos {rem m : ℝ} (h : 0 < rem) : thisStep rem m = min rem m := by
  simp [thisStep, jsSignR_of_pos h]

theorem thisStep_of_neg {rem m : ℝ} (h : rem < 0) : thisStep rem m = max rem (-m) := by
  simp [thisStep, jsSignR_of_neg h]

theorem thisStep_zero (m : ℝ) : thisStep 0 m = 0 := by
  simp [thisStep, jsSignR_zero]

theorem abs_thisStep_le_budget {rem m : ℝ} (hm : 0 < m) : |thisStep rem m| ≤ m := by
  rcases lt_trichotomy rem 0 with h | h | h
  · rw [thisStep_of_neg h, abs_le]
    refine ⟨le_max_right _ _, max_le (by linarith) (by linarith)⟩
  · subst h; rw [thisStep_zero]; simpa using hm.le
  · rw [thisStep_of_pos h, abs_le]
    refine ⟨le_min (by linarith) (by linarith), min_le_right _ _⟩

theorem abs_thisStep_le_rem {rem m : ℝ} (hm : 0 < m) : |thisStep rem m| ≤ |rem| := by
  rcases lt_trichotomy rem 0 with h | h | h
  · rw [thisStep_of_neg h]
    have hmax : max rem (-m) ≤ 0 := max_le h.le (by linarith)
    rw [abs_of_nonpos hmax, abs_of_neg h]
    have := le_max_left rem (-m)
    linarith
  · subst h; rw [thisStep_zero]
  · rw [thisStep_of_pos h]
    have hmin : 0 ≤ min rem m := le_min h.le hm.le
    rw [abs_of_nonneg hmin, abs_of_pos h]
    exact min_le_left _ _

theorem thisStep_mul_nonneg {rem m : ℝ} (hm : 0 < m) : 0 ≤ thisStep rem m * rem := by
  rcases lt_trichotomy rem 0 with h | h | h
  · rw [thisStep_of_neg h]
    have hmax : max rem (-m) ≤ 0 := max_le h.le (by linarith)
    have h1 : 0 ≤ (-(max rem (-m))) * (-rem) :=
      mul_nonneg (by linarith) (by linarith)
    nlinarith
  · subst h; rw [thisStep_zero]; simp
  · rw [thisStep_of_pos h]
    exact mul_nonneg (le_min h.le hm.le) h.le

theorem sub_thisStep_nonneg {rem m : ℝ} (h : 0 ≤ rem) : 0 ≤ rem - thisStep rem m := by
  rcases eq_or_lt_of_le h with h0 | h0
  · rw [← h0, thisStep_zero]; simp
  · rw [thisStep_of_pos h0]
    have := min_le_left rem m
    linarith

theorem sub_thisStep_nonpos {rem m : ℝ} (h : rem ≤ 0) : rem - thisStep rem m ≤ 0 := by
  rcases eq_or_lt_of_le h with h0 | h0
  · rw [h0, thisStep_zero]; simp
  · rw [thisStep_of_neg h0]
    have := le_max_left rem (-m)
    linarith

theorem abs_sub_thisStep {rem m : ℝ} (hm : 0 < m) :
    |rem - thisStep rem m| = max 0 (|rem| - m) := by
  rcases lt_trichotomy rem 0 with h | h | h
  · rw [thisStep_of_neg h, abs_of_neg h]
    rcases le_total (-m) rem with hc | hc
    · rw [max_eq_left hc, sub_self, abs_zero, max_eq_left (by linarith)]
    · rw [max_eq_right hc, abs_of_nonpos (by linarith), max_eq_right (by linarith)]
      ring
  · subst h
    rw [thisStep_zero, sub_self, abs_zero, zero_sub,
      max_eq_left (by linarith)]
  · rw [thisStep_of_pos h, abs_of_pos h]
    rcases le_total rem m with hc | hc
    · rw [min_eq_left hc, sub_self, abs_zero, max_eq_left (by linarith)]
    · rw [min_eq_right hc, abs_of_nonneg (by linarith), max_eq_right (by linarith)]

theorem jsRem_bounds {x m : ℝ} (hm : 0 < m) : -m < jsRem x m ∧ jsRem x m < m := by
  have e : m * (x / m) = x := by field_simp
  unfold jsRem jsTrunc
  by_cases hx : 0 ≤ x / m
  · rw [if_pos hx]
    have h1 : (⌊x / m⌋ : ℝ) ≤ x / m := Int.floor_le _
    have h2 : x / m < (⌊x / m⌋ : ℝ) + 1 := Int.lt_floor_add_one _
    have lo : m * ((⌊x / m⌋ : ℝ)) ≤ x := by
      calc m * ((⌊x / m⌋ : ℝ)) ≤ m * (x / m) := mul_le_mul_of_nonneg_left h1 hm.le
        _ = x := e
    have hi : x < m * ((⌊x / m⌋ : ℝ)) + m := by
      have h3 := mul_lt_mul_of_pos_left h2 hm
      calc x = m * (x / m) := e.symm
        _ < m * ((⌊x / m⌋ : ℝ) + 1) := h3
        _ = m * ((⌊x / m⌋ : ℝ)) + m := by ring
    constructor <;> linarith
  · rw [if_neg hx]
    have h1 : x / m ≤ (⌈x / m⌉ : ℝ) := Int.le_ceil _
    have h2 : (⌈x / m⌉ : ℝ) < x / m + 1 := Int.ceil_lt_add_one _
    have hi : x ≤ m * ((⌈x / m⌉ : ℝ)) := by
      calc x = m * (x / m) := e.symm
        _ ≤ m * ((⌈x / m⌉ : ℝ)) := mul_le_mul_of_nonneg_left h1 hm.le
    have lo : m * ((⌈x / m⌉ : ℝ)) < x + m := by
      have h3 := mul_lt_mul_of_pos_left h2 hm
      calc m * ((⌈x / m⌉ : ℝ)) < m * (x / m + 1) := h3
        _ = x + m := by rw [mul_add, e, mul_one]
    constructor <;> linarith

theorem normalize2pi_nonneg (x : ℝ) : 0 ≤ normalize2pi x := by
  have hb := jsRem_bounds (x := x) Real.two_pi_pos
  simp only [normalize2pi]
  split_ifs with hr
  · linarith [hb.1]
  · linarith

theorem normalize2pi_lt_two_pi (x : ℝ) : normalize2pi x < 2 * π := by
  have hb := jsRem_bounds (x := x) Real.two_pi_pos
  simp only [normalize2pi]
  split_ifs with hr
  · linarith
  · linarith [hb.2]

theorem normalize2pi_eq_self {x : ℝ} (h0 : 0 ≤ x) (h1 : x < 2 * π) :
    normalize2pi x = x := by
  have hm : (0:ℝ) < 2 * π := Real.two_pi_pos
  have hx : 0 ≤ x / (2 * π) := div_nonneg h0 hm.le
  have hfl : ⌊x / (2 * π)⌋ = 0 := by
    rw [Int.floor_eq_zero_iff, Set.mem_Ico]
    exact ⟨hx, (div_lt_one hm).mpr h1⟩
  simp only [normalize2pi, jsRem, jsTrunc]
  rw [if_pos hx, hfl]
  push_cast
  rw [mul_zero, sub_zero, if_neg (not_lt.mpr h0)]

/-! Structural lemmas about the step function. -/

theorem pushPen_posX (s : RobotState) : (pushPen s).posX = s.posX := by
  unfold pushPen; split_ifs <;> rfl

theorem pushPen_posY (s : RobotState) : (pushPen s).posY = s.posY := by
  unfold pushPen; split_ifs <;> rfl

theorem pushPen_orientation (s : RobotState) : (pushPen s).orientation = s.orientation := by
  unfold pushPen; split_ifs <;> rfl

theorem pushPen_left (s : RobotState) :
    (pushPen s).leftWheelDistance = s.leftWheelDistance := by
  unfold pushPen; split_ifs <;> rfl

theorem pushPen_right (s : RobotState) :
    (pushPen s).rightWheelDistance = s.rightWheelDistance := by
  unfold pushPen; split_ifs <;> rfl

theorem pushPen_speed (s : RobotState) : (pushPen s).speed = s.speed := by
  unfold pushPen; split_ifs <;> rfl

theorem pushPen_wheelDistance (s : RobotState) :
    (pushPen s).wheelDistance = s.wheelDistance := by
  unfold pushPen; split_ifs <;> rfl

theorem pushPen_wheelOffset (s : RobotState) :
    (pushPen s).wheelOffset = s.wheelOffset := by
  unfold pushPen; split_ifs <;> rfl

theorem pushPen_penDown (s : RobotState) : (pushPen s).penDown = s.penDown := by
  unfold pushPen; split_ifs <;> rfl

theorem moveStep_left (s : RobotState) (dt : ℝ) :
    (moveStep s dt).leftWheelDistance =
      s.leftWheelDistance - thisStep s.leftWheelDistance (s.speed * dt) := by
  simp only [moveStep]; split_ifs <;> rfl

theorem moveStep_right (s : RobotState) (dt : ℝ) :
    (moveStep s dt).rightWheelDistance =
      s.rightWheelDistance - thisStep s.rightWheelDistance (s.speed * dt) := by
  simp only [moveStep]; split_ifs <;> rfl

theorem moveStep_speed (s : RobotState) (dt : ℝ) : (moveStep s dt).speed = s.speed := by
  simp only [moveStep]; split_ifs <;> rfl

theorem moveStep_wheelDistance (s : RobotState) (dt : ℝ) :
    (moveStep s dt).wheelDistance = s.wheelDistance := by
  simp only [moveStep]; split_ifs <;> rfl

theorem moveStep_wheelOffset (s : RobotState) (dt : ℝ) :
    (moveStep s dt).wheelOffset = s.wheelOffset := by
  simp only [moveStep]; split_ifs <;> rfl

theorem moveStep_penDown (s : RobotState) (dt : ℝ) :
    (moveStep s dt).penDown = s.penDown := by
  simp only [moveStep]; split_ifs <;> rfl

theorem moveStep_penPositions (s : RobotState) (dt : ℝ) :
    (moveStep s dt).penPositions = s.penPositions := by
  simp only [moveStep]; split_ifs <;> rfl

theorem update_nonpos {s : RobotState} {dt : ℝ} (h : dt ≤ 0) : update s dt = s := by
  simp [update, h]

theorem update_bothZero {s : RobotState} {dt : ℝ}
    (hl : s.leftWheelDistance = 0) (hr : s.rightWheelDistance = 0) :
    update s dt = s := by
  simp [update, hl, hr]

theorem update_active {s : RobotState} {dt : ℝ} (h : 0 < dt)
    (hz : ¬(s.leftWheelDistance = 0 ∧ s.rightWheelDistance = 0)) :
    update s dt = pushPen (moveStep s dt) := by
  simp [update, not_le.mpr h, hz]

theorem update_speed (s : RobotState) (dt : ℝ) : (update s dt).speed = s.speed := by
  unfold update; split_ifs
  · rfl
  · rfl
  · rw [pushPen_speed, moveStep_speed]

theorem update_remaining {s : RobotState} {dt : ℝ} (h : 0 < dt) :
    (update s dt).leftWheelDistance =
      s.leftWheelDistance - thisStep s.leftWheelDistance (s.speed * dt) ∧
    (update s dt).rightWheelDistance =
      s.rightWheelDistance - thisStep s.rightWheelDistance (s.speed * dt) := by
  by_cases hz : s.leftWheelDistance = 0 ∧ s.rightWheelDistance = 0
  · rw [update_bothZero hz.1 hz.2, hz.1, hz.2, thisStep_zero]
    constructor <;> ring
  · rw [update_active h hz, pushPen_left, pushPen_right, moveStep_left, moveStep_right]
    exact ⟨rfl, rfl⟩

theorem moveStep_orientation_mem {s : RobotState} (dt : ℝ)
    (h0 : 0 ≤ s.orientation) (h1 : s.orientation < 2 * π) :
    0 ≤ (moveStep s dt).orientation ∧ (moveStep s dt).orientation < 2 * π := by
  simp only [moveStep]; split_ifs <;>
    first
      | exact ⟨h0, h1⟩
      | exact ⟨normalize2pi_nonneg _, normalize2pi_lt_two_pi _⟩

theorem update_orientation_mem {s : RobotState} (dt : ℝ)
    (h0 : 0 ≤ s.orientation) (h1 : s.orientation < 2 * π) :
    0 ≤ (update s dt).orientation ∧ (update s dt).orientation < 2 * π := by
  unfold update; split_ifs
  · exact ⟨h0, h1⟩
  · exact ⟨h0, h1⟩
  · rw [pushPen_orientation]; exact moveStep_orientation_mem dt h0 h1

theorem moveStep_straight {s : RobotState} {dt : ℝ}
    (heq : thisStep s.leftWheelDistance (s.speed * dt) =
      thisStep s.rightWheelDistance (s.speed * dt)) :
    (moveStep s dt).posX =
      s.posX + thisStep s.leftWheelDistance (s.speed * dt) * Real.cos s.orientation ∧
    (moveStep s dt).posY =
      s.posY + thisStep s.leftWheelDistance (s.speed * dt) * Real.sin s.orientation ∧
    (moveStep s dt).orientation = s.orientation := by
  simp only [moveStep, if_pos heq]
  refine ⟨by ring, by ring, ?_⟩
  trivial

theorem moveStep_orientation_pivot_right {s : RobotState} {dt : ℝ}
    (hl : thisStep s.leftWheelDistance (s.speed * dt) = 0)
    (hr : thisStep s.rightWheelDistance (s.speed * dt) ≠ 0) :
    (moveStep s dt).orientation =
      normalize2pi (s.orientation +
        thisStep s.rightWheelDistance (s.speed * dt) / s.wheelDistance * (-1)) := by
  have hne : thisStep s.leftWheelDistance (s.speed * dt) ≠
      thisStep s.rightWheelDistance (s.speed * dt) := by
    rw [hl]; exact fun h => hr h.symm
  simp only [moveStep, if_neg hne, if_pos (Or.inl hl), if_pos hl]

theorem moveStep_orientation_arc {s : RobotState} {dt : ℝ}
    (hne : thisStep s.leftWheelDistance (s.speed * dt) ≠
      thisStep s.rightWheelDistance (s.speed * dt))
    (hl : thisStep s.leftWheelDistance (s.speed * dt) ≠ 0)
    (hr : thisStep s.rightWheelDistance (s.speed * dt) ≠ 0) :
    (moveStep s dt).orientation =
      normalize2pi (s.orientation +
        (thisStep s.rightWheelDistance (s.speed * dt) -
          thisStep s.leftWheelDistance (s.speed * dt)) / s.wheelDistance) := by
  simp only [moveStep, if_neg hne, if_neg (not_or.mpr ⟨hl, hr⟩)]

/-! Evaluation lemmas for the JavaScript-number operations. -/

@[simp] theorem jsAdd_some_some (x y : ℝ) : jsAdd (some x) (some y) = some (x + y) := rfl

@[simp] theorem jsAdd_none_left (a : JSNum) : jsAdd none a = none := by cases a <;> rfl

@[simp] theorem jsAdd_none_right (a : JSNum) : jsAdd a none = none := by cases a <;> rfl

@[simp] theorem jsSub_some_some (x y : ℝ) : jsSub (some x) (some y) = some (x - y) := rfl

@[simp] theorem jsSub_none_left (a : JSNum) : jsSub none a = none := by cases a <;> rfl

@[simp] theorem jsSub_none_right (a : JSNum) : jsSub a none = none := by cases a <;> rfl

@[simp] theorem jsMul_some_some (x y : ℝ) : jsMul (some x) (some y) = some (x * y) := rfl

@[simp] theorem jsMul_none_left (a : JSNum) : jsMul none a = none := by cases a <;> rfl

@[simp] theorem jsMul_none_right (a : JSNum) : jsMul a none = none := by cases a <;> rfl

@[simp] theorem jsDiv_none_left (a : JSNum) : jsDiv none a = none := by cases a <;> rfl

@[simp] theorem jsDiv_none_right (a : JSNum) : jsDiv a none = none := by cases a <;> rfl

@[simp] theorem jsRemN_none_left (a : JSNum) : jsRemN none a = none := by cases a <;> rfl

@[simp] theorem jsRemN_none_right (a : JSNum) : jsRemN a none = none := by cases a <;> rfl

@[simp] theorem jsNegN_some (x : ℝ) : jsNegN (some x) = some (-x) := rfl

@[simp] theorem jsNegN_none : jsNegN none = none := rfl

@[simp] theorem jsSinN_some (x : ℝ) : jsSinN (some x) = some (Real.sin x) := rfl

@[simp] theorem jsSinN_none : jsSinN none = none := rfl

@[simp] theorem jsCosN_some (x : ℝ) : jsCosN (some x) = some (Real.cos x) := rfl

@[simp] theorem jsCosN_none : jsCosN none = none := rfl

@[simp] theorem jsSignN_some (x : ℝ) : jsSignN (some x) = some (jsSignR x) := rfl

@[simp] theorem jsSignN_none : jsSignN none = none := rfl

@[simp] theorem jsMinN_some_some (x y : ℝ) : jsMinN (some x) (some y) = some (min x y) := rfl

@[simp] theorem jsMinN_none_left (a : JSNum) : jsMinN none a = none := by cases a <;> rfl

@[simp] theorem jsMinN_none_right (a : JSNum) : jsMinN a none = none := by cases a <;> rfl

@[simp] theorem jsMaxN_some_some (x y : ℝ) : jsMaxN (some x) (some y) = some (max x y) := rfl

@[simp] theorem jsMaxN_none_left (a : JSNum) : jsMaxN none a = none := by cases a <;> rfl

@[simp] theorem jsMaxN_none_right (a : JSNum) : jsMaxN a none = none := by cases a <;> rfl

@[simp] theorem jsEqP_some_some (x y : ℝ) : jsEqP (some x) (some y) ↔ x = y := Iff.rfl

@[simp] theorem jsEqP_none_left (a : JSNum) : ¬ jsEqP none a := by
  cases a <;> exact fun h => h

@[simp] theorem jsEqP_none_right (a : JSNum) : ¬ jsEqP a none := by
  cases a <;> exact fun h => h

@[simp] theorem jsLeP_some_some (x y : ℝ) : jsLeP (some x) (some y) ↔ x ≤ y := Iff.rfl

@[simp] theorem jsLeP_none_left (a : JSNum) : ¬ jsLeP none a := by
  cases a <;> exact fun h => h

@[simp] theorem jsLtP_some_some (x y : ℝ) : jsLtP (some x) (some y) ↔ x < y := Iff.rfl

@[simp] theorem jsLtP_none_left (a : JSNum) : ¬ jsLtP none a := by
  cases a <;> exact fun h => h

/-- Non-finite propagation through the motion phase: with a positive finite
left remaining distance, a right remaining distance of exactly zero and a
non-finite time slice, the clamp turns the left travel non-finite, the
pivot branch is taken, and the heading, both position coordinates and the
left remaining budget all come out non-finite. -/
theorem jsMoveStep_nan {s : RobotStateJS} {l : ℝ}
    (hleft : s.leftWheelDistance = some l) (hl : 0 < l)
    (hright : s.rightWheelDistance = some 0) :
    (jsMoveStep s none).orientation = none ∧
    (jsMoveStep s none).posX = none ∧
    (jsMoveStep s none).posY = none ∧
    (jsMoveStep s none).leftWheelDistance = none := by
  simp [jsMoveStep, hleft, hright, jsSignR_of_pos hl, jsSignR_zero, hl.ne']

/-- Non-finite propagation through update: no validation takes place, the
NaN time slice passes the guards and the mutated state carries non-finite
heading, position and left remaining budget. -/
theorem jsUpdate_nan_propagation {s : RobotStateJS} {l : ℝ}
    (hleft : s.leftWheelDistance = some l) (hl : 0 < l)
    (hright : s.rightWheelDistance = some 0) :
    (jsUpdate s none).orientation = none ∧
    (jsUpdate s none).posX = none ∧
    (jsUpdate s none).posY = none ∧
    (jsUpdate s none).leftWheelDistance = none := by
  have hBZ : ¬ (jsEqP s.leftWheelDistance (some 0) ∧ jsEqP s.rightWheelDistance (some 0)) := by
    rw [hleft]
    intro h
    exact hl.ne' (by simpa using h.1)
  have hm := jsMoveStep_nan hleft hl hright
  by_cases hp : (jsMoveStep s none).penDown
  · simp only [jsUpdate, if_neg (jsLeP_none_left (some 0)), if_neg hBZ, if_pos hp]
    exact ⟨hm.1, hm.2.1, hm.2.2.1, hm.2.2.2⟩
  · simp only [jsUpdate, if_neg (jsLeP_none_left (some 0)), if_neg hBZ, if_neg hp]
    exact hm

/-- Counterexample to the claim that a non-finite deltaTime is rejected
before any mutation: at a concrete state with left remaining 5 and right
remaining 0, update with a NaN time slice mutates the state, driving the
position and heading non-finite instead of leaving them unchanged. -/
theorem update_nan_counterexample :
    (jsUpdate ⟨some 0, some 0, some 0, some 5, some 0, some (17 / 2), some 12,
        some 10, false, []⟩ none).posX = none ∧
    (jsUpdate ⟨some 0, some 0, some 0, some 5, some 0, some (17 / 2), some 12,
        some 10, false, []⟩ none).orientation = none ∧
    (⟨some 0, some 0, some 0, some 5, some 0, some (17 / 2), some 12,
        some 10, false, []⟩ : RobotStateJS).posX = some 0 := by
  have hm := jsMoveStep_nan
    (s := ⟨some 0, some 0, some 0, some 5, some 0, some (17 / 2), some 12,
      some 10, false, []⟩) (l := 5) rfl (by norm_num) rfl
  have hBZ : ¬ (jsEqP (some (5:ℝ)) (some 0) ∧ jsEqP (some (0:ℝ)) (some 0)) := by
    simp
  by_cases hp : (jsMoveStep (⟨some 0, some 0, some 0, some 5, some 0, some (17 / 2),
      some 12, some 10, false, []⟩ : RobotStateJS) none).penDown
  · refine ⟨?_, ?_, rfl⟩ <;>
      simp only [jsUpdate, if_neg (jsLeP_none_left (some 0)), if_neg hBZ, if_pos hp]
    · exact hm.2.1
    · exact hm.1
  · refine ⟨?_, ?_, rfl⟩ <;>
      simp only [jsUpdate, if_neg (jsLeP_none_left (some 0)), if_neg hBZ, if_neg hp]
    · exact hm.2.1
    · exact hm.1

/-- Witness for the NaN-propagation theorem at a second concrete state. -/
theorem jsUpdate_nan_propagation_witness :
    (0:ℝ) < 7 ∧
    ((jsUpdate ⟨some 2, some 3, some 1, some 7, some 0, some 4, some 5,
        some 6, true, []⟩ none).orientation = none ∧
     (jsUpdate ⟨some 2, some 3, some 1, some 7, some 0, some 4, some 5,
        some 6, true, []⟩ none).posX = none ∧
     (jsUpdate ⟨some 2, some 3, some 1, some 7, some 0, some 4, some 5,
        some 6, true, []⟩ none).posY = none ∧
     (jsUpdate ⟨some 2, some 3, some 1, some 7, some 0, some 4, some 5,
        some 6, true, []⟩ none).leftWheelDistance = none) :=
  ⟨by norm_num, jsUpdate_nan_propagation (l := 7) rfl (by norm_num) rfl⟩

/-- C5, claim theorem: for every configuration and every sequence of caller
operations on a freshly constructed simulator, the stored heading read
back is always in the interval from 0 inclusive to 2*pi exclusive, in
every motion regime. -/
theorem orientation_normalized_invariant (cfg : SimulatorConfig) (cs : List SimCmd) :
    0 ≤ (runCmds (mkRobot cfg) cs).orientation ∧
    (runCmds (mkRobot cfg) cs).orientation < 2 * π := by
  have stepInv : ∀ (s : RobotState) (c : SimCmd),
      0 ≤ s.orientation → s.orientation < 2 * π →
      0 ≤ (runCmd s c).orientation ∧ (runCmd s c).orientation < 2 * π := by
    intro s c h0 h1
    cases c with
    | stepCmd dt => exact update_orientation_mem dt h0 h1
    | setWheels l r => exact ⟨h0, h1⟩
    | setPen b => exact ⟨h0, h1⟩
  have main : ∀ (cs' : List SimCmd) (s : RobotState),
      0 ≤ s.orientation → s.orientation < 2 * π →
      0 ≤ (runCmds s cs').orientation ∧ (runCmds s cs').orientation < 2 * π := by
    intro cs'
    induction cs' with
    | nil => intro s h0 h1; exact ⟨h0, h1⟩
    | cons c rest ih =>
      intro s h0 h1
      have h := stepInv s c h0 h1
      exact ih (runCmd s c) h.1 h.2
  exact main cs (mkRobot cfg) (le_refl 0) Real.two_pi_pos

theorem max_zero_sub_collapse {a b : ℝ} (hb : 0 ≤ b) :
    max 0 (max 0 a - b) = max 0 (a - b) := by
  rcases le_total a 0 with h | h
  · rw [max_eq_left h, zero_sub, max_eq_left (by linarith), max_eq_left (by linarith)]
  · rw [max_eq_right h]

theorem sub_thisStep_of_nonneg {rem m : ℝ} (hm : 0 < m) (h : 0 ≤ rem) :
    rem - thisStep rem m = max 0 (rem - m) := by
  rcases eq_or_lt_of_le h with h0 | h0
  · rw [← h0, thisStep_zero, sub_zero, max_eq_left (by linarith)]
  · rw [thisStep_of_pos h0]
    rcases le_total rem m with hc | hc
    · rw [min_eq_left hc, sub_self, max_eq_left (by linarith)]
    · rw [min_eq_right hc, max_eq_right (by linarith)]

theorem update_abs_remaining {s : RobotState} {dt : ℝ} (hdt : 0 < dt)
    (hS : 0 < s.speed) :
    |(update s dt).leftWheelDistance| = max 0 (|s.leftWheelDistance| - s.speed * dt) ∧
    |(update s dt).rightWheelDistance| = max 0 (|s.rightWheelDistance| - s.speed * dt) := by
  have hm : 0 < s.speed * dt := mul_pos hS hdt
  have h := update_remaining (s := s) hdt
  rw [h.1, h.2, abs_sub_thisStep hm, abs_sub_thisStep hm]
  exact ⟨rfl, rfl⟩

theorem steps_abs_remaining (dts : List ℝ) : ∀ (s : RobotState),
    (∀ t ∈ dts, 0 < t) → 0 < s.speed →
    (|(steps s dts).leftWheelDistance| = max 0 (|s.leftWheelDistance| - s.speed * dts.sum) ∧
     |(steps s dts).rightWheelDistance| = max 0 (|s.rightWheelDistance| - s.speed * dts.sum) ∧
     (steps s dts).speed = s.speed) := by
  induction dts with
  | nil =>
    intro s _ _
    refine ⟨?_, ?_, rfl⟩ <;>
      · simp only [steps, List.foldl_nil, List.sum_nil, mul_zero, sub_zero]
        rw [max_eq_right (abs_nonneg _)]
  | cons t rest ih =>
    intro s hpos hS
    have ht : 0 < t := hpos t (List.mem_cons_self t rest)
    have hrest : ∀ u ∈ rest, 0 < u := fun u hu => hpos u (List.mem_cons_of_mem t hu)
    have hsum : 0 ≤ rest.sum := List.sum_nonneg fun u hu => (hrest u hu).le
    have hstep : steps s (t :: rest) = steps (update s t) rest := rfl
    have hS' : 0 < (update s t).speed := by rw [update_speed]; exact hS
    have hmain := ih (update s t) hrest hS'
    have habs := update_abs_remaining ht hS
    rw [hstep]
    refine ⟨?_, ?_, ?_⟩
    · rw [hmain.1, update_speed, habs.1,
        max_zero_sub_collapse (mul_nonneg hS.le hsum), List.sum_cons]
      congr 1
      ring
    · rw [hmain.2.1, update_speed, habs.2,
        max_zero_sub_collapse (mul_nonneg hS.le hsum), List.sum_cons]
      congr 1
      ring
    · rw [hmain.2.2, update_speed]

/-- C4, claim theorem (amended none; as claimed): the per-step travel is
clamped to the budget and the remaining magnitude, never flips sign, and
zero remaining gives zero travel; the remaining magnitudes never grow and
never change sign across a step, and over any run of positive time slices
the remaining magnitude is exactly the initial magnitude minus the
consumed distance, floored at zero, hence exactly zero once elapsed time
times speed covers the initial magnitude. -/
theorem step_clamp_and_depletion :
    (∀ (s : RobotState) (dt : ℝ), 0 < dt → 0 < s.speed →
      (|thisStep s.leftWheelDistance (s.speed * dt)| ≤ s.speed * dt ∧
       |thisStep s.rightWheelDistance (s.speed * dt)| ≤ s.speed * dt) ∧
      (|thisStep s.leftWheelDistance (s.speed * dt)| ≤ |s.leftWheelDistance| ∧
       |thisStep s.rightWheelDistance (s.speed * dt)| ≤ |s.rightWheelDistance|) ∧
      (0 ≤ thisStep s.leftWheelDistance (s.speed * dt) * s.leftWheelDistance ∧
       0 ≤ thisStep s.rightWheelDistance (s.speed * dt) * s.rightWheelDistance) ∧
      (s.leftWheelDistance = 0 → thisStep s.leftWheelDistance (s.speed * dt) = 0) ∧
      (s.rightWheelDistance = 0 → thisStep s.rightWheelDistance (s.speed * dt) = 0) ∧
      (|(update s dt).leftWheelDistance| ≤ |s.leftWheelDistance| ∧
       |(update s dt).rightWheelDistance| ≤ |s.rightWheelDistance|) ∧
      (0 ≤ s.leftWheelDistance → 0 ≤ (update s dt).leftWheelDistance) ∧
      (s.leftWheelDistance ≤ 0 → (update s dt).leftWheelDistance ≤ 0) ∧
      (0 ≤ s.rightWheelDistance → 0 ≤ (update s dt).rightWheelDistance) ∧
      (s.rightWheelDistance ≤ 0 → (update s dt).rightWheelDistance ≤ 0)) ∧
    (∀ (s : RobotState) (dts : List ℝ), (∀ t ∈ dts, 0 < t) → 0 < s.speed →
      |(steps s dts).leftWheelDistance| =
        max 0 (|s.leftWheelDistance| - s.speed * dts.sum) ∧
      |(steps s dts).rightWheelDistance| =
        max 0 (|s.rightWheelDistance| - s.speed * dts.sum)) ∧
    (∀ (s : RobotState) (dts : List ℝ), (∀ t ∈ dts, 0 < t) → 0 < s.speed →
      |s.leftWheelDistance| ≤ s.speed * dts.sum →
      |s.rightWheelDistance| ≤ s.speed * dts.sum →
      (steps s dts).leftWheelDistance = 0 ∧ (steps s dts).rightWheelDistance = 0) := by
  refine ⟨?_, ?_, ?_⟩
  · intro s dt hdt hS
    have hm : 0 < s.speed * dt := mul_pos hS hdt
    have hrem := update_remaining (s := s) hdt
    refine ⟨⟨abs_thisStep_le_budget hm, abs_thisStep_le_budget hm⟩,
      ⟨abs_thisStep_le_rem hm, abs_thisStep_le_rem hm⟩,
      ⟨thisStep_mul_nonneg hm, thisStep_mul_nonneg hm⟩,
      ?_, ?_, ?_, ?_, ?_, ?_, ?_⟩
    · intro h; rw [h]; exact thisStep_zero _
    · intro h; rw [h]; exact thisStep_zero _
    · constructor
      · rw [hrem.1, abs_sub_thisStep hm]
        exact max_le (abs_nonneg _) (by linarith [abs_nonneg s.leftWheelDistance, hm])
      · rw [hrem.2, abs_sub_thisStep hm]
        exact max_le (abs_nonneg _) (by linarith [abs_nonneg s.rightWheelDistance, hm])
    · intro h; rw [hrem.1]; exact sub_thisStep_nonneg h
    · intro h; rw [hrem.1]; exact sub_thisStep_nonpos h
    · intro h; rw [hrem.2]; exact sub_thisStep_nonneg h
    · intro h; rw [hrem.2]; exact sub_thisStep_nonpos h
  · intro s dts hpos hS
    have h := steps_abs_remaining dts s hpos hS
    exact ⟨h.1, h.2.1⟩
  · intro s dts hpos hS hleft hright
    have h := steps_abs_remaining dts s hpos hS
    constructor
    · have : |(steps s dts).leftWheelDistance| = 0 := by
        rw [h.1, max_eq_left (by linarith)]
      exact abs_eq_zero.mp this
    · have : |(steps s dts).rightWheelDistance| = 0 := by
        rw [h.2.1, max_eq_left (by linarith)]
      exact abs_eq_zero.mp this

/-- Witness for the C4 theorem at a concrete state with remaining
distances 3 and -2, speed 2 and time slices of one second. -/
theorem step_clamp_and_depletion_witness :
    (0:ℝ) < 1 ∧
    (0:ℝ) < (⟨0, 0, 0, 3, -2, 1, 12, 2, false, []⟩ : RobotState).speed ∧
    (∀ t ∈ [(1:ℝ), 1], 0 < t) ∧
    |(update ⟨0, 0, 0, 3, -2, 1, 12, 2, false, []⟩ 1).leftWheelDistance| ≤
      |(⟨0, 0, 0, 3, -2, 1, 12, 2, false, []⟩ : RobotState).leftWheelDistance| ∧
    |(steps (⟨0, 0, 0, 3, -2, 1, 12, 2, false, []⟩ : RobotState) [1, 1]).leftWheelDistance| =
      max 0 (|(⟨0, 0, 0, 3, -2, 1, 12, 2, false, []⟩ : RobotState).leftWheelDistance| -
        (⟨0, 0, 0, 3, -2, 1, 12, 2, false, []⟩ : RobotState).speed * ([(1:ℝ), 1].sum)) ∧
    (steps (⟨0, 0, 0, 3, -2, 1, 12, 2, false, []⟩ : RobotState) [1, 1]).leftWheelDistance = 0 :=
  ⟨by norm_num, by norm_num,
   by intro t ht; rcases List.mem_cons.mp ht with h | h
      · rw [h]; norm_num
      · rw [List.mem_singleton.mp h]; norm_num,
   ((step_clamp_and_depletion.1 ⟨0, 0, 0, 3, -2, 1, 12, 2, false, []⟩ 1
      (by norm_num) (by norm_num)).2.2.2.2.2.1).1,
   (step_clamp_and_depletion.2.1 ⟨0, 0, 0, 3, -2, 1, 12, 2, false, []⟩ [1, 1]
      (by intro t ht; rcases List.mem_cons.mp ht with h | h
          · rw [h]; norm_num
          · rw [List.mem_singleton.mp h]; norm_num)
      (by norm_num)).1,
   (step_clamp_and_depletion.2.2 ⟨0, 0, 0, 3, -2, 1, 12, 2, false, []⟩ [1, 1]
      (by intro t ht; rcases List.mem_cons.mp ht with h | h
          · rw [h]; norm_num
          · rw [List.mem_singleton.mp h]; norm_num)
      (by norm_num) (by norm_num) (by norm_num)).1⟩

theorem update_straight_fields {s : RobotState} {dt : ℝ} (hdt : 0 < dt)
    (heq : thisStep s.leftWheelDistance (s.speed * dt) =
      thisStep s.rightWheelDistance (s.speed * dt)) :
    (update s dt).posX = s.posX +
      thisStep s.leftWheelDistance (s.speed * dt) * Real.cos s.orientation ∧
    (update s dt).posY = s.posY +
      thisStep s.leftWheelDistance (s.speed * dt) * Real.sin s.orientation ∧
    (update s dt).orientation = s.orientation := by
  by_cases hz : s.leftWheelDistance = 0 ∧ s.rightWheelDistance = 0
  · rw [update_bothZero hz.1 hz.2, hz.1, thisStep_zero]
    refine ⟨by ring, by ring, rfl⟩
  · rw [update_active hdt hz, pushPen_posX, pushPen_posY, pushPen_orientation]
    exact moveStep_straight heq

theorem straight_scenario (dts : List ℝ) : ∀ (s : RobotState),
    (∀ t ∈ dts, 0 < t) →
    s.speed = 10 → s.orientation = 0 → s.posY = 0 →
    s.rightWheelDistance = s.leftWheelDistance →
    0 ≤ s.leftWheelDistance →
    s.posX = 10 - s.leftWheelDistance →
    ((steps s dts).posX = 10 - max 0 (s.leftWheelDistance - 10 * dts.sum) ∧
     (steps s dts).posY = 0 ∧
     (steps s dts).orientation = 0 ∧
     (steps s dts).leftWheelDistance = max 0 (s.leftWheelDistance - 10 * dts.sum) ∧
     (steps s dts).rightWheelDistance = max 0 (s.leftWheelDistance - 10 * dts.sum)) := by
  induction dts with
  | nil =>
    intro s _ hsp hor hpy hrl hl hpx
    simp only [steps, List.foldl_nil, List.sum_nil, mul_zero, sub_zero]
    rw [max_eq_right hl]
    exact ⟨hpx, hpy, hor, rfl, hrl⟩
  | cons t rest ih =>
    intro s hpos hsp hor hpy hrl hl hpx
    have ht : 0 < t := hpos t (List.mem_cons_self t rest)
    have hrest : ∀ u ∈ rest, 0 < u := fun u hu => hpos u (List.mem_cons_of_mem t hu)
    have hsum : 0 ≤ rest.sum := List.sum_nonneg fun u hu => (hrest u hu).le
    have hm : 0 < s.speed * t := by rw [hsp]; linarith
    have heq : thisStep s.leftWheelDistance (s.speed * t) =
        thisStep s.rightWheelDistance (s.speed * t) := by rw [hrl]
    have hf := update_straight_fields ht heq
    have hrem := update_remaining (s := s) ht
    have hstep : steps s (t :: rest) = steps (update s t) rest := rfl
    rw [hstep]
    have hsp' : (update s t).speed = 10 := by rw [update_speed, hsp]
    have hor' : (update s t).orientation = 0 := by rw [hf.2.2, hor]
    have hpy' : (update s t).posY = 0 := by
      rw [hf.2.1, hpy, hor, Real.sin_zero, mul_zero, add_zero]
    have hrl' : (update s t).rightWheelDistance = (update s t).leftWheelDistance := by
      rw [hrem.1, hrem.2, hrl]
    have hlv : (update s t).leftWheelDistance = max 0 (s.leftWheelDistance - 10 * t) := by
      rw [hrem.1, sub_thisStep_of_nonneg hm hl, hsp]
    have hl' : 0 ≤ (update s t).leftWheelDistance := by rw [hlv]; exact le_max_left _ _
    have hpx' : (update s t).posX = 10 - (update s t).leftWheelDistance := by
      rw [hf.1, hor, Real.cos_zero, mul_one, hrem.1, hpx]
      ring
    have hmain := ih (update s t) hrest hsp' hor' hpy' hrl' hl' hpx'
    have hcol : max 0 ((update s t).leftWheelDistance - 10 * rest.sum) =
        max 0 (s.leftWheelDistance - 10 * (t :: rest).sum) := by
      rw [hlv, max_zero_sub_collapse (mul_nonneg (by norm_num) hsum), List.sum_cons]
      congr 1
      ring
    refine ⟨?_, hmain.2.1, hmain.2.2.1, ?_, ?_⟩
    · rw [hmain.1, hcol]
    · rw [hmain.2.2.2.1, hcol]
    · rw [hmain.2.2.2.2, hcol]

/-- C3, claim theorem: whenever the two clamped per-wheel travels are
equal, the reference point translates by exactly that travel along the
heading vector and the orientation is unchanged; and in the concrete
scenario with the default configuration, both wheels set to 10 and speed
10, any run of positive time slices totalling at least one second ends at
position (10, 0), heading 0 and exactly zero remaining distances. -/
theorem straight_step_translation :
    (∀ (s : RobotState) (dt : ℝ), 0 < dt →
      thisStep s.leftWheelDistance (s.speed * dt) =
        thisStep s.rightWheelDistance (s.speed * dt) →
      (update s dt).posX = s.posX +
        thisStep s.leftWheelDistance (s.speed * dt) * Real.cos s.orientation ∧
      (update s dt).posY = s.posY +
        thisStep s.leftWheelDistance (s.speed * dt) * Real.sin s.orientation ∧
      (update s dt).orientation = s.orientation) ∧
    (∀ dts : List ℝ, (∀ t ∈ dts, 0 < t) → 1 ≤ dts.sum →
      (steps (setWheelDistances (mkRobot ⟨some 8.5, some 12, some 10⟩) 10 10) dts).posX = 10 ∧
      (steps (setWheelDistances (mkRobot ⟨some 8.5, some 12, some 10⟩) 10 10) dts).posY = 0 ∧
      (steps (setWheelDistances (mkRobot ⟨some 8.5, some 12, some 10⟩) 10 10) dts).orientation = 0 ∧
      (steps (setWheelDistances (mkRobot ⟨some 8.5, some 12, some 10⟩) 10 10) dts).leftWheelDistance = 0 ∧
      (steps (setWheelDistances (mkRobot ⟨some 8.5, some 12, some 10⟩) 10 10) dts).rightWheelDistance = 0) := by
  constructor
  · intro s dt hdt heq
    exact update_straight_fields hdt heq
  · intro dts hpos hsum
    have hbase := straight_scenario dts
      (setWheelDistances (mkRobot ⟨some 8.5, some 12, some 10⟩) 10 10) hpos
      (by show jsOrDefault (some 10) 10 = 10; norm_num [jsOrDefault])
      rfl rfl rfl (by show (0:ℝ) ≤ 10; norm_num) (by show (0:ℝ) = 10 - 10; norm_num)
    have hmax : max 0 ((setWheelDistances (mkRobot ⟨some 8.5, some 12, some 10⟩)
        10 10).leftWheelDistance - 10 * dts.sum) = 0 := by
      have hval : (setWheelDistances (mkRobot ⟨some 8.5, some 12, some 10⟩)
          10 10).leftWheelDistance = 10 := rfl
      rw [hval]
      exact max_eq_left (by linarith)
    refine ⟨?_, hbase.2.1, hbase.2.2.1, ?_, ?_⟩
    · rw [hbase.1, hmax]; norm_num
    · rw [hbase.2.2.2.1, hmax]
    · rw [hbase.2.2.2.2, hmax]

/-- Witness for the C3 theorem: a straight step of one second at heading
zero with 5 owed to each wheel, and the exactness scenario run with a
single one-second slice. -/
theorem straight_step_translation_witness :
    (0:ℝ) < 1 ∧
    thisStep (⟨0, 0, 0, 5, 5, 8.5, 12, 10, false, []⟩ : RobotState).leftWheelDistance
        ((⟨0, 0, 0, 5, 5, 8.5, 12, 10, false, []⟩ : RobotState).speed * 1) =
      thisStep (⟨0, 0, 0, 5, 5, 8.5, 12, 10, false, []⟩ : RobotState).rightWheelDistance
        ((⟨0, 0, 0, 5, 5, 8.5, 12, 10, false, []⟩ : RobotState).speed * 1) ∧
    (update ⟨0, 0, 0, 5, 5, 8.5, 12, 10, false, []⟩ 1).posX =
      (0:ℝ) + thisStep (5:ℝ) (10 * 1) * Real.cos 0 ∧
    (update ⟨0, 0, 0, 5, 5, 8.5, 12, 10, false, []⟩ 1).orientation = 0 ∧
    (∀ t ∈ [(1:ℝ)], 0 < t) ∧ (1:ℝ) ≤ [(1:ℝ)].sum ∧
    (steps (setWheelDistances (mkRobot ⟨some 8.5, some 12, some 10⟩) 10 10) [(1:ℝ)]).posX = 10 ∧
    (steps (setWheelDistances (mkRobot ⟨some 8.5, some 12, some 10⟩) 10 10) [(1:ℝ)]).leftWheelDistance = 0 := by
  have hmem : ∀ t ∈ [(1:ℝ)], 0 < t := by
    intro t ht
    rw [List.mem_singleton.mp ht]
    norm_num
  have hsum : (1:ℝ) ≤ [(1:ℝ)].sum := by
    simp
  have h1 := straight_step_translation.1 ⟨0, 0, 0, 5, 5, 8.5, 12, 10, false, []⟩ 1
    (by norm_num) rfl
  have h2 := straight_step_translation.2 [(1:ℝ)] hmem hsum
  exact ⟨by norm_num, rfl, h1.1, h1.2.2, hmem, hsum, h2.1, h2.2.2.2.1⟩

/-- C10, claim theorem: with the pen up the trail never grows; with the
pen down every step that changes the pose appends exactly the new
reference point; no step ever appends more than one sample; and the trail
is only ever extended, never edited. -/
theorem trail_gating :
    (∀ (s : RobotState) (dt : ℝ), s.penDown = false →
      (update s dt).penPositions = s.penPositions) ∧
    (∀ (s : RobotState) (dt : ℝ), s.penDown = true →
      ((update s dt).posX, (update s dt).posY, (update s dt).orientation) ≠
        (s.posX, s.posY, s.orientation) →
      (update s dt).penPositions =
        s.penPositions ++ [((update s dt).posX, (update s dt).posY)]) ∧
    (∀ (s : RobotState) (dt : ℝ),
      (update s dt).penPositions.length ≤ s.penPositions.length + 1) ∧
    (∀ (s : RobotState) (dt : ℝ), ∃ tl : List (ℝ × ℝ),
      (update s dt).penPositions = s.penPositions ++ tl) := by
  refine ⟨?_, ?_, ?_, ?_⟩
  · intro s dt hp
    unfold update
    split_ifs
    · rfl
    · rfl
    · unfold pushPen
      rw [if_neg (by rw [moveStep_penDown, hp]; simp), moveStep_penPositions]
  · intro s dt hp hne
    have hdt : 0 < dt := by
      by_contra h
      push_neg at h
      rw [update_nonpos h] at hne
      exact hne rfl
    have hz : ¬(s.leftWheelDistance = 0 ∧ s.rightWheelDistance = 0) := by
      intro h
      rw [update_bothZero h.1 h.2] at hne
      exact hne rfl
    rw [update_active hdt hz, pushPen_posX, pushPen_posY]
    unfold pushPen
    rw [if_pos (by rw [moveStep_penDown]; exact hp)]
    show (moveStep s dt).penPositions ++ _ = _
    rw [moveStep_penPositions]
  · intro s dt
    unfold update
    split_ifs
    · exact Nat.le_succ _
    · exact Nat.le_succ _
    · unfold pushPen
      split_ifs
      · show ((moveStep s dt).penPositions ++
          [((moveStep s dt).posX, (moveStep s dt).posY)]).length ≤
            s.penPositions.length + 1
        rw [moveStep_penPositions, List.length_append]
        simp
      · rw [moveStep_penPositions]
        exact Nat.le_succ _
  · intro s dt
    unfold update
    split_ifs
    · exact ⟨[], by simp⟩
    · exact ⟨[], by simp⟩
    · unfold pushPen
      split_ifs
      · refine ⟨[((moveStep s dt).posX, (moveStep s dt).posY)], ?_⟩
        show (moveStep s dt).penPositions ++ _ = _
        rw [moveStep_penPositions]
      · refine ⟨[], ?_⟩
        rw [moveStep_penPositions, List.append_nil]

/-- Witness for the C10 theorem: a pen-up step leaves the empty trail
empty, and a pen-down straight step of nonzero motion appends exactly the
new reference point. -/
theorem trail_gating_witness :
    ((⟨0, 0, 0, 5, 5, 8.5, 12, 10, false, []⟩ : RobotState).penDown = false) ∧
    (update ⟨0, 0, 0, 5, 5, 8.5, 12, 10, false, []⟩ 1).penPositions =
      (⟨0, 0, 0, 5, 5, 8.5, 12, 10, false, []⟩ : RobotState).penPositions ∧
    ((⟨0, 0, 0, 5, 5, 8.5, 12, 10, true, []⟩ : RobotState).penDown = true) ∧
    ((update ⟨0, 0, 0, 5, 5, 8.5, 12, 10, true, []⟩ 1).posX,
     (update ⟨0, 0, 0, 5, 5, 8.5, 12, 10, true, []⟩ 1).posY,
     (update ⟨0, 0, 0, 5, 5, 8.5, 12, 10, true, []⟩ 1).orientation) ≠
      ((⟨0, 0, 0, 5, 5, 8.5, 12, 10, true, []⟩ : RobotState).posX,
       (⟨0, 0, 0, 5, 5, 8.5, 12, 10, true, []⟩ : RobotState).posY,
       (⟨0, 0, 0, 5, 5, 8.5, 12, 10, true, []⟩ : RobotState).orientation) ∧
    (update ⟨0, 0, 0, 5, 5, 8.5, 12, 10, true, []⟩ 1).penPositions =
      (⟨0, 0, 0, 5, 5, 8.5, 12, 10, true, []⟩ : RobotState).penPositions ++
        [((update ⟨0, 0, 0, 5, 5, 8.5, 12, 10, true, []⟩ 1).posX,
          (update ⟨0, 0, 0, 5, 5, 8.5, 12, 10, true, []⟩ 1).posY)] ∧
    (update ⟨0, 0, 0, 5, 5, 8.5, 12, 10, false, []⟩ 1).penPositions.length ≤
      (⟨0, 0, 0, 5, 5, 8.5, 12, 10, false, []⟩ : RobotState).penPositions.length + 1 ∧
    ∃ tl : List (ℝ × ℝ),
      (update ⟨0, 0, 0, 5, 5, 8.5, 12, 10, false, []⟩ 1).penPositions =
        (⟨0, 0, 0, 5, 5, 8.5, 12, 10, false, []⟩ : RobotState).penPositions ++ tl := by
  have hps : (update ⟨0, 0, 0, 5, 5, 8.5, 12, 10, true, []⟩ 1).posX = 5 := by
    have h := update_straight_fields
      (s := ⟨0, 0, 0, 5, 5, 8.5, 12, 10, true, []⟩) (show (0:ℝ) < 1 by norm_num) rfl
    rw [h.1]
    show (0:ℝ) + thisStep 5 (10 * 1) * Real.cos 0 = 5
    rw [thisStep_of_pos (by norm_num : (0:ℝ) < 5), Real.cos_zero,
      min_eq_left (by norm_num)]
    norm_num
  have hne : ((update ⟨0, 0, 0, 5, 5, 8.5, 12, 10, true, []⟩ 1).posX,
      (update ⟨0, 0, 0, 5, 5, 8.5, 12, 10, true, []⟩ 1).posY,
      (update ⟨0, 0, 0, 5, 5, 8.5, 12, 10, true, []⟩ 1).orientation) ≠
      ((⟨0, 0, 0, 5, 5, 8.5, 12, 10, true, []⟩ : RobotState).posX,
       (⟨0, 0, 0, 5, 5, 8.5, 12, 10, true, []⟩ : RobotState).posY,
       (⟨0, 0, 0, 5, 5, 8.5, 12, 10, true, []⟩ : RobotState).orientation) := by
    intro h
    have h1 := congrArg Prod.fst h
    simp only at h1
    rw [hps] at h1
    have : (5:ℝ) = 0 := h1
    norm_num at this
  exact ⟨rfl, trail_gating.1 _ 1 rfl, rfl, hne, trail_gating.2.1 _ 1 rfl hne,
    trail_gating.2.2.1 _ 1, trail_gating.2.2.2 _ 1⟩

/-- C2, evaluation at the failing input: with heading 1 rad, wheel track 2,
wheel offset 12, speed 10, left remaining 0 and right remaining 1, a
one-second step takes the pivot branch with the right wheel moving; the
code applies the heading change -(d / wheelTrack) = -1/2, yielding heading
1/2, whereas a positive (counter-clockwise) change of +1/2 as claimed (and
as the comment in the source states) would yield heading 3/2. -/
theorem pivot_sign_eval :
    (update ⟨0, 0, 1, 0, 1, 2, 12, 10, false, []⟩ 1).orientation = 1 / 2 ∧
    (1:ℝ) / 2 ≠ 1 + 1 / 2 := by
  constructor
  · rw [update_active one_pos (by simp), pushPen_orientation]
    have hl : thisStep
        (⟨0, 0, 1, 0, 1, 2, 12, 10, false, []⟩ : RobotState).leftWheelDistance
        ((⟨0, 0, 1, 0, 1, 2, 12, 10, false, []⟩ : RobotState).speed * 1) = 0 :=
      thisStep_zero _
    have hrv : thisStep
        (⟨0, 0, 1, 0, 1, 2, 12, 10, false, []⟩ : RobotState).rightWheelDistance
        ((⟨0, 0, 1, 0, 1, 2, 12, 10, false, []⟩ : RobotState).speed * 1) = 1 := by
      show thisStep (1:ℝ) (10 * 1) = 1
      rw [thisStep_of_pos (by norm_num)]
      exact min_eq_left (by norm_num)
    rw [moveStep_orientation_pivot_right hl (by rw [hrv]; norm_num), hrv]
    show normalize2pi ((1:ℝ) + 1 / 2 * (-1)) = 1 / 2
    rw [show (1:ℝ) + 1 / 2 * (-1) = 1 / 2 by norm_num]
    exact normalize2pi_eq_self (by norm_num) (by linarith [Real.pi_gt_three])
  · norm_num

/-- C1, counterexample to the small-angle guard: both wheels move by
different nonzero amounts whose heading change 1/20000 is below 1e-4, yet
the step still changes the heading by that amount instead of leaving it
unchanged, because the integrator has no such guard. -/
theorem arc_small_angle_guard_counterexample :
    (update ⟨0, 0, 0, 1, 1 + 1 / 20000, 1, 12, 10, false, []⟩ 1).orientation = 1 / 20000 ∧
    (1:ℝ) / 20000 ≠ 0 ∧
    |((1 + 1 / 20000 : ℝ) - 1) / 1| < 1 / 10000 := by
  refine ⟨?_, by norm_num, ?_⟩
  · rw [update_active one_pos (by simp), pushPen_orientation]
    have hlv : thisStep
        (⟨0, 0, 0, 1, 1 + 1 / 20000, 1, 12, 10, false, []⟩ : RobotState).leftWheelDistance
        ((⟨0, 0, 0, 1, 1 + 1 / 20000, 1, 12, 10, false, []⟩ : RobotState).speed * 1) = 1 := by
      show thisStep (1:ℝ) (10 * 1) = 1
      rw [thisStep_of_pos (by norm_num)]
      exact min_eq_left (by norm_num)
    have hrv : thisStep
        (⟨0, 0, 0, 1, 1 + 1 / 20000, 1, 12, 10, false, []⟩ : RobotState).rightWheelDistance
        ((⟨0, 0, 0, 1, 1 + 1 / 20000, 1, 12, 10, false, []⟩ : RobotState).speed * 1) =
        1 + 1 / 20000 := by
      show thisStep (1 + 1 / 20000 : ℝ) (10 * 1) = 1 + 1 / 20000
      rw [thisStep_of_pos (by norm_num)]
      exact min_eq_left (by norm_num)
    rw [moveStep_orientation_arc (by rw [hlv, hrv]; norm_num)
      (by rw [hlv]; norm_num) (by rw [hrv]; norm_num), hlv, hrv]
    show normalize2pi ((0:ℝ) + (1 + 1 / 20000 - 1) / 1) = 1 / 20000
    rw [show (0:ℝ) + (1 + 1 / 20000 - 1) / 1 = 1 / 20000 by norm_num]
    exact normalize2pi_eq_self (by norm_num) (by linarith [Real.pi_gt_three])
  · rw [show ((1 + 1 / 20000 : ℝ) - 1) / 1 = 1 / 20000 by norm_num,
      abs_of_pos (by norm_num)]
    norm_num

/-- C1, claim theorem as amended: in the arc regime (both clamped travels
nonzero and unequal) the integrator always applies the ICC rotation,
whatever the magnitude of the heading change: the heading becomes the
normalization of theta plus (rightStep - leftStep) / wheelTrack, the
remaining budgets drop by the travels, and the new pose comes from
rotating the axle center about ICC = axle + R(-sin theta, cos theta) by
the heading change and re-adding the wheel offset along the new heading. -/
theorem arc_step_integration (s : RobotState) (dt lS rS : ℝ) (hdt : 0 < dt)
    (hlS : lS = thisStep s.leftWheelDistance (s.speed * dt))
    (hrS : rS = thisStep s.rightWheelDistance (s.speed * dt))
    (hl : lS ≠ 0) (hr : rS ≠ 0) (hne : lS ≠ rS) :
    (update s dt).orientation =
      normalize2pi (s.orientation + (rS - lS) / s.wheelDistance) ∧
    (update s dt).leftWheelDistance = s.leftWheelDistance - lS ∧
    (update s dt).rightWheelDistance = s.rightWheelDistance - rS ∧
    (∃ ICCX ICCY : ℝ,
      ICCX = (s.posX - s.wheelOffset * Real.cos s.orientation) +
        (s.wheelDistance / 2 * ((lS + rS) / (rS - lS))) * (-Real.sin s.orientation) ∧
      ICCY = (s.posY - s.wheelOffset * Real.sin s.orientation) +
        (s.wheelDistance / 2 * ((lS + rS) / (rS - lS))) * Real.cos s.orientation ∧
      (update s dt).posX =
        (Real.cos ((rS - lS) / s.wheelDistance) *
            ((s.posX - s.wheelOffset * Real.cos s.orientation) - ICCX) -
          Real.sin ((rS - lS) / s.wheelDistance) *
            ((s.posY - s.wheelOffset * Real.sin s.orientation) - ICCY) + ICCX) +
        s.wheelOffset *
          Real.cos (normalize2pi (s.orientation + (rS - lS) / s.wheelDistance)) ∧
      (update s dt).posY =
        (Real.sin ((rS - lS) / s.wheelDistance) *
            ((s.posX - s.wheelOffset * Real.cos s.orientation) - ICCX) +
          Real.cos ((rS - lS) / s.wheelDistance) *
            ((s.posY - s.wheelOffset * Real.sin s.orientation) - ICCY) + ICCY) +
        s.wheelOffset *
          Real.sin (normalize2pi (s.orientation + (rS - lS) / s.wheelDistance))) := by
  subst hlS
  subst hrS
  have hz : ¬(s.leftWheelDistance = 0 ∧ s.rightWheelDistance = 0) := by
    intro h
    exact hl (by rw [h.1]; exact thisStep_zero _)
  rw [update_active hdt hz, pushPen_orientation, pushPen_posX, pushPen_posY,
    pushPen_left, pushPen_right]
  refine ⟨moveStep_orientation_arc hne hl hr, moveStep_left s dt, moveStep_right s dt, ?_⟩
  refine ⟨_, _, rfl, rfl, ?_, ?_⟩
  · simp only [moveStep, if_neg hne, if_neg (not_or.mpr ⟨hl, hr⟩)]
    ring
  · simp only [moveStep, if_neg hne, if_neg (not_or.mpr ⟨hl, hr⟩)]
    ring

/-- Witness for the C1 theorem with wheel travels 2 and 4 on track 2. -/
theorem arc_step_integration_witness :
    (0:ℝ) < 1 ∧ (2:ℝ) = thisStep (2:ℝ) (10 * 1) ∧ (4:ℝ) = thisStep (4:ℝ) (10 * 1) ∧
    (2:ℝ) ≠ 0 ∧ (4:ℝ) ≠ 0 ∧ (2:ℝ) ≠ 4 ∧
    ((update ⟨0, 0, 0, 2, 4, 2, 3, 10, false, []⟩ 1).orientation =
      normalize2pi (0 + ((4:ℝ) - 2) / 2) ∧
     (update ⟨0, 0, 0, 2, 4, 2, 3, 10, false, []⟩ 1).leftWheelDistance = 2 - 2 ∧
     (update ⟨0, 0, 0, 2, 4, 2, 3, 10, false, []⟩ 1).rightWheelDistance = 4 - 4) := by
  have h2 : (2:ℝ) = thisStep (2:ℝ) (10 * 1) := by
    rw [thisStep_of_pos (by norm_num)]
    rw [min_eq_left (by norm_num)]
  have h4 : (4:ℝ) = thisStep (4:ℝ) (10 * 1) := by
    rw [thisStep_of_pos (by norm_num)]
    rw [min_eq_left (by norm_num)]
  have h := arc_step_integration ⟨0, 0, 0, 2, 4, 2, 3, 10, false, []⟩ 1 2 4
    (by norm_num) h2 h4 (by norm_num) (by norm_num) (by norm_num)
  exact ⟨by norm_num, h2, h4, by norm_num, by norm_num, by norm_num,
    h.1, h.2.1, h.2.2.1⟩

/-- C6, counterexample: constructing with wheelTrack equal to zero does not
fail and produces a fully formed state; the zero is silently replaced by
the default track 8.5 through the JavaScript or-defaulting idiom. -/
theorem construction_no_validation_counterexample :
    (mkRobot ⟨some 0, none, none⟩).wheelDistance = 8.5 ∧
    (mkRobot ⟨some 0, none, none⟩).posX = 0 ∧
    (mkRobot ⟨some 0, none, none⟩).posY = 0 ∧
    (mkRobot ⟨some 0, none, none⟩).orientation = 0 := by
  refine ⟨?_, rfl, rfl, rfl⟩
  show jsOrDefault (some 0) 8.5 = 8.5
  norm_num [jsOrDefault]

/-- C6, claim theorem as amended: construction never validates and never
fails; an absent or zero configuration value is replaced by its default
(track 8.5, offset 12, speed 10) and any nonzero value, negative values
included, is accepted verbatim; the fresh state starts at the origin with
heading zero, zero remaining distances, pen up and empty trail. -/
theorem construction_defaults (x : ℝ) (hx : x ≠ 0) (cfg : SimulatorConfig) :
    (mkRobot cfg).posX = 0 ∧ (mkRobot cfg).posY = 0 ∧
    (mkRobot cfg).orientation = 0 ∧ (mkRobot cfg).leftWheelDistance = 0 ∧
    (mkRobot cfg).rightWheelDistance = 0 ∧ (mkRobot cfg).penDown = false ∧
    (mkRobot cfg).penPositions = [] ∧
    (mkRobot ⟨some x, some x, some x⟩).wheelDistance = x ∧
    (mkRobot ⟨some x, some x, some x⟩).wheelOffset = x ∧
    (mkRobot ⟨some x, some x, some x⟩).speed = x ∧
    (mkRobot ⟨some 0, some 0, some 0⟩).wheelDistance = 8.5 ∧
    (mkRobot ⟨some 0, some 0, some 0⟩).wheelOffset = 12 ∧
    (mkRobot ⟨some 0, some 0, some 0⟩).speed = 10 ∧
    (mkRobot ⟨none, none, none⟩).wheelDistance = 8.5 := by
  refine ⟨rfl, rfl, rfl, rfl, rfl, rfl, rfl, ?_, ?_, ?_, ?_, ?_, ?_, rfl⟩
  · show jsOrDefault (some x) 8.5 = x
    simp [jsOrDefault, hx]
  · show jsOrDefault (some x) 12 = x
    simp [jsOrDefault, hx]
  · show jsOrDefault (some x) 10 = x
    simp [jsOrDefault, hx]
  · show jsOrDefault (some 0) 8.5 = 8.5
    norm_num [jsOrDefault]
  · show jsOrDefault (some 0) 12 = 12
    norm_num [jsOrDefault]
  · show jsOrDefault (some 0) 10 = 10
    norm_num [jsOrDefault]

/-- Witness for the C6 theorem: even a negative track value is accepted
verbatim, and a zero one is replaced by the default. -/
theorem construction_defaults_witness :
    ((-3:ℝ) ≠ 0) ∧
    (mkRobot ⟨some (-3), some (-3), some (-3)⟩).wheelDistance = -3 ∧
    (mkRobot ⟨some 0, some 0, some 0⟩).wheelDistance = 8.5 ∧
    (mkRobot ⟨none, none, none⟩).posX = 0 := by
  have h := construction_defaults (-3) (by norm_num) ⟨none, none, none⟩
  exact ⟨by norm_num, h.2.2.2.2.2.2.2.1, h.2.2.2.2.2.2.2.2.2.2.1, h.1⟩

/-- C8, claim theorem: the later solver draft rotates the world delta by
the negated heading into the local frame and returns rightDistance =
localDx + k localDy and leftDistance = localDx - k localDy, with k the
track divided by the offset, 1 standing in for a zero offset. -/
theorem solver_local_frame_formulas (robot : RobotState) (targetX targetY : ℝ) :
    (calculateWheelDistancesDirect robot targetX targetY).rightDistance =
      ((targetX - robot.posX) * Real.cos robot.orientation +
        (targetY - robot.posY) * Real.sin robot.orientation) +
      (robot.wheelDistance / (if robot.wheelOffset = 0 then 1 else robot.wheelOffset)) *
        (-(targetX - robot.posX) * Real.sin robot.orientation +
          (targetY - robot.posY) * Real.cos robot.orientation) ∧
    (calculateWheelDistancesDirect robot targetX targetY).leftDistance =
      ((targetX - robot.posX) * Real.cos robot.orientation +
        (targetY - robot.posY) * Real.sin robot.orientation) -
      (robot.wheelDistance / (if robot.wheelOffset = 0 then 1 else robot.wheelOffset)) *
        (-(targetX - robot.posX) * Real.sin robot.orientation +
          (targetY - robot.posY) * Real.cos robot.orientation) := by
  constructor <;>
    · simp only [calculateWheelDistancesDirect, jsOrOne, Real.cos_neg, Real.sin_neg]
      ring

theorem normalizePmPi_bounds (x : ℝ) : -π ≤ normalizePmPi x ∧ normalizePmPi x ≤ π := by
  have hm : (0:ℝ) < 2 * π := Real.two_pi_pos
  unfold normalizePmPi
  split_ifs with h1 h2
  · have e : 2 * π * ((x - π) / (2 * π)) = x - π := by field_simp
    have c1 : (x - π) / (2 * π) ≤ (⌈(x - π) / (2 * π)⌉ : ℝ) := Int.le_ceil _
    have c2 : (⌈(x - π) / (2 * π)⌉ : ℝ) < (x - π) / (2 * π) + 1 := Int.ceil_lt_add_one _
    have d1 : x - π ≤ 2 * π * (⌈(x - π) / (2 * π)⌉ : ℝ) := by
      calc x - π = 2 * π * ((x - π) / (2 * π)) := e.symm
        _ ≤ 2 * π * (⌈(x - π) / (2 * π)⌉ : ℝ) := mul_le_mul_of_nonneg_left c1 hm.le
    have d2 : 2 * π * (⌈(x - π) / (2 * π)⌉ : ℝ) < x - π + 2 * π := by
      calc 2 * π * (⌈(x - π) / (2 * π)⌉ : ℝ) < 2 * π * ((x - π) / (2 * π) + 1) :=
          mul_lt_mul_of_pos_left c2 hm
        _ = x - π + 2 * π := by rw [mul_add, e, mul_one]
    constructor <;> linarith
  · have e : 2 * π * ((-π - x) / (2 * π)) = -π - x := by field_simp
    have c1 : (-π - x) / (2 * π) ≤ (⌈(-π - x) / (2 * π)⌉ : ℝ) := Int.le_ceil _
    have c2 : (⌈(-π - x) / (2 * π)⌉ : ℝ) < (-π - x) / (2 * π) + 1 := Int.ceil_lt_add_one _
    have d1 : -π - x ≤ 2 * π * (⌈(-π - x) / (2 * π)⌉ : ℝ) := by
      calc -π - x = 2 * π * ((-π - x) / (2 * π)) := e.symm
        _ ≤ 2 * π * (⌈(-π - x) / (2 * π)⌉ : ℝ) := mul_le_mul_of_nonneg_left c1 hm.le
    have d2 : 2 * π * (⌈(-π - x) / (2 * π)⌉ : ℝ) < -π - x + 2 * π := by
      calc 2 * π * (⌈(-π - x) / (2 * π)⌉ : ℝ) < 2 * π * ((-π - x) / (2 * π) + 1) :=
          mul_lt_mul_of_pos_left c2 hm
        _ = -π - x + 2 * π := by rw [mul_add, e, mul_one]
    constructor <;> linarith
  · exact ⟨not_lt.mp h2, not_lt.mp h1⟩

theorem normalizePmPi_modEq (x : ℝ) : ∃ k : ℤ, normalizePmPi x = x - 2 * π * (k : ℝ) := by
  unfold normalizePmPi
  split_ifs with h1 h2
  · exact ⟨⌈(x - π) / (2 * π)⌉, rfl⟩
  · refine ⟨-⌈(-π - x) / (2 * π)⌉, ?_⟩
    push_cast
    ring
  · exact ⟨0, by push_cast; ring⟩

/-- C9, claim theorem: the first solver draft returns, alongside the wheel
command, a predicted state whose position is the current position plus the
world delta and whose orientation is the current orientation plus
atan((leftDistance - rightDistance) / wheelTrack), renormalized into the
interval from -pi to pi; the solver is a pure function of its inputs. -/
theorem solver_predicted_state (robot : RobotState) (targetX targetY : ℝ) :
    (calculateWheelDistancesDirectV1 robot targetX targetY).predictedState.posX =
      robot.posX + (targetX - robot.posX) ∧
    (calculateWheelDistancesDirectV1 robot targetX targetY).predictedState.posY =
      robot.posY + (targetY - robot.posY) ∧
    (∃ k : ℤ,
      (calculateWheelDistancesDirectV1 robot targetX targetY).predictedState.orientation =
        robot.orientation + Real.arctan
          (((calculateWheelDistancesDirectV1 robot targetX targetY).leftDistance -
            (calculateWheelDistancesDirectV1 robot targetX targetY).rightDistance) /
            robot.wheelDistance) - 2 * π * (k : ℝ)) ∧
    -π ≤ (calculateWheelDistancesDirectV1 robot targetX targetY).predictedState.orientation ∧
    (calculateWheelDistancesDirectV1 robot targetX targetY).predictedState.orientation ≤ π := by
  refine ⟨rfl, rfl, ?_, ?_, ?_⟩
  · obtain ⟨k, hk⟩ := normalizePmPi_modEq (robot.orientation + Real.arctan
      ((((targetY - robot.posY) +
          robot.wheelDistance / jsOrOne robot.wheelOffset * (targetX - robot.posX)) -
        ((targetY - robot.posY) -
          robot.wheelDistance / jsOrOne robot.wheelOffset * (targetX - robot.posX))) /
        robot.wheelDistance))
    exact ⟨k, hk⟩
  · exact (normalizePmPi_bounds (robot.orientation + Real.arctan
      ((((targetY - robot.posY) +
          robot.wheelDistance / jsOrOne robot.wheelOffset * (targetX - robot.posX)) -
        ((targetY - robot.posY) -
          robot.wheelDistance / jsOrOne robot.wheelOffset * (targetX - robot.posX))) /
        robot.wheelDistance))).1
  · exact (normalizePmPi_bounds (robot.orientation + Real.arctan
      ((((targetY - robot.posY) +
          robot.wheelDistance / jsOrOne robot.wheelOffset * (targetX - robot.posX)) -
        ((targetY - robot.posY) -
          robot.wheelDistance / jsOrOne robot.wheelOffset * (targetX - robot.posX))) /
        robot.wheelDistance))).2
